import Mathlib

/-!
Verification development for the ZRacer arcade game (`src/zracer.cpp`).

The C++ core is shallowly embedded below.  Conventions of the embedding:

* C `int` values are modelled as `ℤ`; C integer division (which truncates
  toward zero) is `Int.tdiv`.
* The track grid `vector<vector<char>> circuit` is modelled as a total
  function `ℤ → ℤ → Char`; all the in-bounds behaviour of the program is
  captured pointwise, and bounds questions are treated explicitly where a
  claim is about them.
* The randomness of `drand()` (a `double` in `[0,1]`) and `rand()` (a
  nonnegative `int`) is modelled by two oracle streams `dr : ℕ → ℚ` and
  `ir : ℕ → ℕ` together with counters that are threaded through the
  generator exactly at the program points where the C code draws a number.
* The single floating point expression of the program, in
  `car_image::_line`, is `(int)((float)(y2-y1)*(i-x1)/(x2-x1)+0.5)`.
  It is modelled exactly over `ℚ` by `roundHalfTrunc` below: all inputs
  reaching it are integers bounded by `3*(MAX_CAR_SIZE-1)^2 < 2^11`, so the
  two float roundings commit no error that could move the truncated result
  (the quotient is at distance at least `1/(2*(x2-x1))` from any half-way
  or integer point unless it is exactly representable).
-/

namespace ZRacer

/-- The C macro `INF` (`123456789`). -/
def INF : ℤ := 123456789

/-- The configuration snapshot consumed by the core (`struct _settings`,
only the fields the core reads). -/
structure Config where
  race_length : ℕ
  race_width : ℤ
  minimal_width : ℤ
  car_size : ℤ
  players : ℤ
  speed_base : ℤ
  character : Char
  rock_chance : ℚ
  turn_chance : ℚ
  vertical_split : Bool
  shared_track : Bool
  screen_height : ℤ

/-- The list of integers `x1, x1+1, ..., x2` (empty when `x2 < x1`),
the index set of a C loop `for(int i=x1; i<=x2; i++)`. -/
def intRange (x1 x2 : ℤ) : List ℤ :=
  (List.range (x2 - x1 + 1).toNat).map (fun n => x1 + (n : ℤ))

/-- Truncation toward zero of `a / b + 1/2` (exact rational arithmetic):
the value of the C expression `(int)((float)a/b+0.5)` for the small
magnitudes occurring in `car_image::_line`.  For `b > 0` this equals
`Int.tdiv (2*a + b) (2*b)` because `a/b + 1/2 = (2*a+b)/(2*b)`. -/
def roundHalfTrunc (a b : ℤ) : ℤ := Int.tdiv (2 * a + b) (2 * b)

/-- Round half up, `⌊a/b + 1/2⌋`, the rounding the specification ascribes
to the rasterizer.  This definition follows the words of the spec and is
compared against `roundHalfTrunc`, which is what the code computes. -/
def roundHalfUp (a b : ℤ) : ℤ := Int.fdiv (2 * a + b) (2 * b)

/-- The `y` coordinate that `car_image::_line` computes for column `i` of
a (already normalized, `x1 ≤ x2`) segment:
`y1 + (int)((float)(y2-y1)*(i-x1)/(x2-x1)+0.5)`. -/
def segY (y1 x1 y2 x2 i : ℤ) : ℤ :=
  y1 + roundHalfTrunc ((y2 - y1) * (i - x1)) (x2 - x1)

/-- Pointwise update of a boolean pixel store (`storage[y][i]=true`). -/
def setTrue (s : ℤ → ℤ → Bool) (y x : ℤ) : ℤ → ℤ → Bool :=
  fun a b => if a = y ∧ b = x then true else s a b

/-- The image of a car (`class car_image`): the pixel mask `storage` and
the ordered dot list `dots` of used pixel coordinates. -/
structure CarImage where
  storage : ℤ → ℤ → Bool
  dots : List (ℤ × ℤ)

/-- The all-false pixel store produced by `car_image::_clear`. -/
def clearStorage : ℤ → ℤ → Bool := fun _ _ => false

/-- The loop body of `car_image::_line` after endpoint normalization:
for each column `i` in `[x1, x2]`, mark `storage[y][i]` and push `(y, i)`
onto the dot list, with `y = segY y1 x1 y2 x2 i`. -/
def lineCore (y1 x1 y2 x2 : ℤ) (acc : (ℤ → ℤ → Bool) × List (ℤ × ℤ)) :
    (ℤ → ℤ → Bool) × List (ℤ × ℤ) :=
  (intRange x1 x2).foldl
    (fun a i =>
      (setTrue a.1 (segY y1 x1 y2 x2 i) i, a.2 ++ [(segY y1 x1 y2 x2 i, i)]))
    acc

/-- `car_image::_line`: if `x2 < x1` the two endpoints are swapped
together, then the columns `[x1, x2]` are rasterized by `lineCore`. -/
def lineSeg (y1 x1 y2 x2 : ℤ) (acc : (ℤ → ℤ → Bool) × List (ℤ × ℤ)) :
    (ℤ → ℤ → Bool) × List (ℤ × ℤ) :=
  if x2 < x1 then lineCore y2 x2 y1 x1 acc else lineCore y1 x1 y2 x2 acc

/-- `car_image::car_image`: clear the storage, then draw the four
segments connecting the scaled key points
`(0,0), (1*(s-1)/4, 4*(s-1)/4), (2*(s-1)/4, 0), (3*(s-1)/4, 4*(s-1)/4),
(4*(s-1)/4, 0)`. -/
def carImage (size : ℤ) : CarImage :=
  let p1 := Int.tdiv (1 * (size - 1)) 4
  let p2 := Int.tdiv (2 * (size - 1)) 4
  let p3 := Int.tdiv (3 * (size - 1)) 4
  let p4 := Int.tdiv (4 * (size - 1)) 4
  let a0 := (clearStorage, ([] : List (ℤ × ℤ)))
  let a1 := lineSeg 0 0 p1 p4 a0
  let a2 := lineSeg p1 p4 p2 0 a1
  let a3 := lineSeg p2 0 p3 p4 a2
  let a4 := lineSeg p3 p4 p4 0 a3
  ⟨a4.1, a4.2⟩

/-- The dot list the specification ascribes to one normalized segment:
for each column `i` in `[x1, x2]` the cell
`(y1 + round((y2-y1)*(i-x1)/(x2-x1)), i)` with round-half-up rounding.
This definition follows the words of the spec (§4.2) and is compared with
`lineCore`/`lineSeg`, which embed the code. -/
def specSegDots (y1 x1 y2 x2 : ℤ) : List (ℤ × ℤ) :=
  (intRange x1 x2).map
    (fun i => (y1 + roundHalfUp ((y2 - y1) * (i - x1)) (x2 - x1), i))

/-- The track grid: `circuit[y][x]`, as a total function. -/
abbrev Grid := ℤ → ℤ → Char

/-- Write one cell of the grid. -/
def setCell (g : Grid) (y x : ℤ) (c : Char) : Grid :=
  fun a b => if a = y ∧ b = x then c else g a b

/-- `track::taken`: a cell is an obstacle iff it is not the space
character. -/
def taken (g : Grid) (y x : ℤ) : Bool := g y x != ' '

/-- `track::mark(y, x, car)`: for every dot of the car, if the cell under
it is empty, write the configured car character into it. -/
def mark (ch : Char) (g : Grid) (y x : ℤ) (car : CarImage) : Grid :=
  car.dots.foldl
    (fun g' d =>
      if g' (y + d.1) (x + d.2) = ' ' then setCell g' (y + d.1) (x + d.2) ch
      else g')
    g

/-- `track::unmark(y, x, car)`: for every dot of the car, if the cell
under it currently holds the car character, reset it to empty. -/
def unmark (ch : Char) (g : Grid) (y x : ℤ) (car : CarImage) : Grid :=
  car.dots.foldl
    (fun g' d =>
      if g' (y + d.1) (x + d.2) = ch then setCell g' (y + d.1) (x + d.2) ' '
      else g')
    g

/-- Membership of a grid cell `(a, b)` in the footprint of a car whose
upper left corner is at `(y, x)`. -/
def inFp (car : CarImage) (y x a b : ℤ) : Bool :=
  car.dots.any (fun d => a = y + d.1 && b = x + d.2)

/-- Write one cell of a single row. -/
def setRow (row : ℤ → Char) (j : ℤ) (c : Char) : ℤ → Char :=
  fun b => if b = j then c else row b

/-- The distance meter character of row `i`: `'0' + i % 10`. -/
def digitChar (i : ℤ) : Char := Char.ofNat (48 + (Int.tmod i 10).toNat)

/-- Kerb drawing: the `switch(borders_directions[k])` of `track::track`
writes `'|'`, `'/'` or `'\'` at the kerb position depending on the current
drift direction, and writes nothing for any other direction value. -/
def drawKerb (row : ℤ → Char) (p d : ℤ) : ℤ → Char :=
  if d = 0 then setRow row p '|'
  else if d = 1 then setRow row p '/'
  else if d = -1 then setRow row p '\\'
  else row

/-- Whether a cell holds one of the three kerb glyphs. -/
def isKerb (c : Char) : Bool := c == '|' || c == '/' || c == '\\'

/-- The turn re-roll loop of `track::track`:
`while(tries++<5 && (drand()<turn_chance || stuck)) dir = rand()%3-1;`.
The state is `(dir, drand-counter, rand-counter)`; each condition
evaluation consumes one `drand()` draw, each body run one `rand()` draw;
the condition is evaluated at most 5 times (`fuel = 5`). -/
def retryLoop (dr : ℕ → ℚ) (turn : ℚ) (stuck : ℤ → Bool) (ir : ℕ → ℕ) :
    ℕ → ℤ × ℕ × ℕ → ℤ × ℕ × ℕ
  | 0, st => st
  | fuel + 1, (d, di, ii) =>
      if dr di < turn ∨ stuck d = true then
        retryLoop dr turn stuck ir fuel (((ir ii % 3 : ℕ) : ℤ) - 1, di + 1, ii + 1)
      else (d, di + 1, ii)

/-- The generator state threaded through the row loop of `track::track`:
kerb positions `borders[0], borders[1]`, drift directions
`borders_directions[0], borders_directions[1]`, and the two RNG counters. -/
structure GenState where
  b0 : ℤ
  b1 : ℤ
  d0 : ℤ
  d1 : ℤ
  di : ℕ
  ii : ℕ

/-- The generator state before the first row:
`borders[0] = (race_width - minimal_width)/4`,
`borders[1] = (race_width*3 + minimal_width)/4`, both directions `0`. -/
def initState (cfg : Config) : GenState :=
  ⟨Int.tdiv (cfg.race_width - cfg.minimal_width) 4,
   Int.tdiv (cfg.race_width * 3 + cfg.minimal_width) 4, 0, 0, 0, 0⟩

/-- One iteration of the row loop of `track::track` for row index `i`:
background, distance digit at column 0, an occasional rock at a random
column, move the kerbs by the current drift, draw both kerb glyphs, then
re-roll the left and right drift directions (retry loop, minimal width
correction, edge sanity check, in this order, left kerb first). -/
def stepRow (cfg : Config) (dr : ℕ → ℚ) (ir : ℕ → ℕ) (i : ℤ) (s : GenState) :
    GenState × (ℤ → Char) :=
  let row0 : ℤ → Char := fun _ => ' '
  let row1 := setRow row0 0 (digitChar i)
  let rock := decide (dr s.di < cfg.rock_chance)
  let di1 := s.di + 1
  let row2 := if rock then setRow row1 (Int.tmod ((ir s.ii : ℕ) : ℤ) cfg.race_width) '*' else row1
  let ii1 := if rock then s.ii + 1 else s.ii
  let B0 := s.b0 + s.d0
  let B1 := s.b1 + s.d1
  let row3 := drawKerb row2 B0 s.d0
  let row4 := drawKerb row3 B1 s.d1
  let r0 := retryLoop dr cfg.turn_chance (fun d => B0 + d == 0) ir 5 (s.d0, di1, ii1)
  let d0a := if B1 - B0 < cfg.minimal_width then -1 else r0.1
  let d0b := if B0 + d0a = 0 then 0 else d0a
  let r1 := retryLoop dr cfg.turn_chance (fun d => B1 + d == cfg.race_width) ir 5 (s.d1, r0.2.1, r0.2.2)
  let d1a := if B1 - B0 < cfg.minimal_width then 1 else r1.1
  let d1b := if B1 + d1a = cfg.race_width then 0 else d1a
  (⟨B0, B1, d0b, d1b, r1.2.1, r1.2.2⟩, row4)

/-- The generator state after `k` rows have been generated.  Row loop
order: the row generated at step `k` is row `race_length - 1 - k` of the
circuit (the loop runs `for(int i=race_length-1; 0<=i; i--)`). -/
def genFrom (cfg : Config) (dr : ℕ → ℚ) (ir : ℕ → ℕ) : ℕ → GenState
  | 0 => initState cfg
  | k + 1 =>
      (stepRow cfg dr ir ((cfg.race_length : ℤ) - 1 - (k : ℤ)) (genFrom cfg dr ir k)).1

/-- The row produced at generation step `k` (row `race_length - 1 - k`). -/
def rowAt (cfg : Config) (dr : ℕ → ℚ) (ir : ℕ → ℕ) (k : ℕ) : ℤ → Char :=
  (stepRow cfg dr ir ((cfg.race_length : ℤ) - 1 - (k : ℤ)) (genFrom cfg dr ir k)).2

/-- The generated circuit as a grid (`track::track`); cells outside the
`race_length × race_width` rectangle of the backing vectors read as
empty. -/
def trackGrid (cfg : Config) (dr : ℕ → ℚ) (ir : ℕ → ℕ) : Grid :=
  fun i j =>
    if 0 ≤ i ∧ i < (cfg.race_length : ℤ) ∧ 0 ≤ j ∧ j < cfg.race_width
    then rowAt cfg dr ir ((cfg.race_length : ℤ) - 1 - i).toNat j
    else ' '

/-- Whether every cell write performed while generating step `k` hits a
column inside `[0, race_width)`: the digit write at column 0, the rock
write (when its roll succeeds) and the two kerb glyph writes (each one
performed only when its direction is in `{-1,0,1}`). -/
def rowWritesOk (cfg : Config) (dr : ℕ → ℚ) (ir : ℕ → ℕ) (k : ℕ) : Bool :=
  let s := genFrom cfg dr ir k
  let B0 := s.b0 + s.d0
  let B1 := s.b1 + s.d1
  let rockCol := Int.tmod ((ir s.ii : ℕ) : ℤ) cfg.race_width
  decide (0 < cfg.race_width) &&
  (!(decide (dr s.di < cfg.rock_chance)) ||
    (decide (0 ≤ rockCol) && decide (rockCol < cfg.race_width))) &&
  (!(decide (s.d0 = 0) || decide (s.d0 = 1) || decide (s.d0 = -1)) ||
    (decide (0 ≤ B0) && decide (B0 < cfg.race_width))) &&
  (!(decide (s.d1 = 0) || decide (s.d1 = 1) || decide (s.d1 = -1)) ||
    (decide (0 ≤ B1) && decide (B1 < cfg.race_width)))

/-- How a run of `track::track` can fail: the precondition `assert`
(`minimal_width <= race_width`) firing before any row is generated, or an
out-of-bounds write into the backing vectors while generating rows. -/
inductive GenErr where
  | configAssert : GenErr
  | outOfBounds : GenErr
deriving DecidableEq

/-- `track::track` with its partiality made explicit: the assert is
checked once, before any row; a generation run whose writes all stay in
bounds produces the circuit grid, any other run is an out-of-bounds
vector access (undefined behaviour in the C++). -/
def genTrackE (cfg : Config) (dr : ℕ → ℚ) (ir : ℕ → ℕ) : Except GenErr Grid :=
  if cfg.race_width < cfg.minimal_width then .error .configAssert
  else if (List.range cfg.race_length).all (fun k => rowWritesOk cfg dr ir k)
  then .ok (trackGrid cfg dr ir)
  else .error .outOfBounds

/-- The per-player state of `player_handler` (without the ncurses
window): time of last move, car corner position `(y, x)`, top displayed
line, the pending one-tick commands, the stored screen height, and the
rasterized car image. -/
structure Player where
  last_move : ℤ
  y : ℤ
  x : ℤ
  top_line : ℤ
  command_x : ℤ
  command_y : ℤ
  screen_height : ℤ
  car : CarImage

/-- The state mutations of a gate-passing `player_handler::tick` up to
and including the vertical clamp: record the move time, advance one row,
scroll the viewport (never above row 0), apply and clear the pending
commands, clamp `y` into the viewport. -/
def movedState (cfg : Config) (p : Player) (t : ℤ) : Player :=
  let top1 := max 0 (p.top_line - 1)
  let y1 := p.y - 1 + p.command_y
  let x1 := p.x + p.command_x
  let y2 := max top1 (min (top1 + p.screen_height - cfg.car_size) y1)
  { p with last_move := t, y := y2, x := x1, top_line := top1,
           command_x := 0, command_y := 0 }

/-- The cells `(i, j)` visited by the collision scan of
`player_handler::tick`: `i` in `[y, y+car_size-1]`, `j` in
`[x, x+car_size-1]`; `track::taken(i, j)` is called for each of them. -/
def scanRect (cfg : Config) (y x : ℤ) : List (ℤ × ℤ) :=
  (intRange y (y + cfg.car_size - 1)).flatMap
    (fun i => (intRange x (x + cfg.car_size - 1)).map (fun j => (i, j)))

/-- The collision scan: some scanned cell is `taken` and belongs to the
occupancy mask of the car (`car->collision_check(i-y, j-x)`). -/
def scanHit (cfg : Config) (g : Grid) (car : CarImage) (y x : ℤ) : Bool :=
  (scanRect cfg y x).any
    (fun c => taken g c.1 c.2 && car.storage (c.1 - y) (c.2 - x))

/-- `player_handler::tick(time)`: if the move gate
`last_move + (y - top_line)/speed_base < time` fails, nothing changes and
the player survives; otherwise the state moves, a car reaching row `0`
returns `false` immediately (win), else the collision scan decides
survival. -/
def tick (cfg : Config) (g : Grid) (p : Player) (t : ℤ) : Player × Bool :=
  if p.last_move + Int.tdiv (p.y - p.top_line) cfg.speed_base < t then
    let p' := movedState cfg p t
    if p'.y ≤ 0 then (p', false)
    else (p', !scanHit cfg g p'.car p'.y p'.x)
  else (p, true)

/-- The cells at which a call `tick cfg g p t` issues `taken` queries:
none when the gate fails or the car finished, the scan rectangle at the
moved position otherwise. -/
def tickScanCells (cfg : Config) (p : Player) (t : ℤ) : List (ℤ × ℤ) :=
  if p.last_move + Int.tdiv (p.y - p.top_line) cfg.speed_base < t then
    let p' := movedState cfg p t
    if p'.y ≤ 0 then [] else scanRect cfg p'.y p'.x
  else []

/-- The three per-tick outcomes of the player state machine.  The code
reports only a boolean (`false` both for a finish and for a crash); this
tri-state records which code path produced it. -/
inductive Outcome where
  | racing : Outcome
  | finished : Outcome
  | crashed : Outcome
deriving DecidableEq

/-- The code path taken by `player_handler::tick`: `finished` for the
early `return false` at `y <= 0`, `crashed` when the collision scan hits,
`racing` otherwise. -/
def tickOutcome (cfg : Config) (g : Grid) (p : Player) (t : ℤ) : Outcome :=
  if p.last_move + Int.tdiv (p.y - p.top_line) cfg.speed_base < t then
    let p' := movedState cfg p t
    if p'.y ≤ 0 then .finished
    else if scanHit cfg g p'.car p'.y p'.x then .crashed
    else .racing
  else .racing

/-- `player_handler::player_handler`: initial placement of player
`position` (window geometry, starting position, `last_move = -INF`,
cleared commands, car image rasterized from the settings). -/
def initPlayer (cfg : Config) (position : ℤ) : Player :=
  let height := if cfg.vertical_split then cfg.screen_height
                else Int.tdiv cfg.screen_height cfg.players
  { last_move := -INF
    y := (cfg.race_length : ℤ) - cfg.car_size
    x := if cfg.shared_track then
           Int.tdiv (cfg.race_width - (cfg.car_size + 1) * (cfg.players - 2 * position)) 2
         else Int.tdiv cfg.race_width 2
    top_line := (cfg.race_length : ℤ) - height
    command_x := 0
    command_y := 0
    screen_height := cfg.screen_height
    car := carImage cfg.car_size }

/-- Overwrite the pending commands (the effect of `parse_input` between
two frames). -/
def setCmd (p : Player) (cx cy : ℤ) : Player :=
  { p with command_x := cx, command_y := cy }

/-- The player states reachable in a running game: the initial state of
any player slot at game time 0, and, from any reachable state that is
still being ticked, the state after one more frame, where the pending
commands may first be overwritten by key input (`parse_input` writes only
`-1` or `1`) and the frame counter advances by one.  A tick that returns
`false` stops the game for this player, so only surviving ticks extend
the relation. -/
inductive Reachable (cfg : Config) (g : Grid) : Player → ℤ → Prop where
  | init (position : ℤ) (hpos : 0 ≤ position ∧ position < cfg.players) :
      Reachable cfg g (initPlayer cfg position) 0
  | step (p : Player) (t cx cy : ℤ)
      (hx : cx = p.command_x ∨ cx = -1 ∨ cx = 1)
      (hy : cy = p.command_y ∨ cy = -1 ∨ cy = 1)
      (hp : Reachable cfg g p t)
      (hsur : (tick cfg g (setCmd p cx cy) (t + 1)).2 = true) :
      Reachable cfg g (tick cfg g (setCmd p cx cy) (t + 1)).1 (t + 1)

/-- One game-side player slot: the handler state plus its `alive[i]`
flag. -/
structure GPlayer where
  p : Player
  alive : Bool

/-- The first shared-track phase of `game::tick`: mark every alive
player at its current position. -/
def markAll (ch : Char) (g : Grid) (ps : List GPlayer) : Grid :=
  ps.foldl (fun g' q => if q.alive then mark ch g' q.p.y q.p.x q.p.car else g') g

/-- The per-player phase of `game::tick` in shared-track mode: for each
alive player in order, remove its own mark, run its tick on the shared
grid, then mark it again at its (possibly moved) position; dead players
are skipped.  Returns the final grid and the updated slots. -/
def runPlayers (cfg : Config) (t : ℤ) : Grid → List GPlayer → Grid × List GPlayer
  | g, [] => (g, [])
  | g, q :: rest =>
    if q.alive then
      let g1 := unmark cfg.character g q.p.y q.p.x q.p.car
      let pr := tick cfg g1 q.p t
      let g2 := mark cfg.character g1 pr.1.y pr.1.x pr.1.car
      let r := runPlayers cfg t g2 rest
      (r.1, ⟨pr.1, pr.2⟩ :: r.2)
    else
      let r := runPlayers cfg t g rest
      (r.1, q :: r.2)

/-- The final shared-track phase of `game::tick`: unmark every player
(alive or not) at its current position. -/
def unmarkAll (ch : Char) (g : Grid) (ps : List GPlayer) : Grid :=
  ps.foldl (fun g' q => unmark ch g' q.p.y q.p.x q.p.car) g

/-- The shared-track portion of `game::tick` (lines 576-596): mark all
alive players, run each alive player as unmark-tick-mark in order, then
unmark everybody.  Key input handling precedes this in the code and only
overwrites commands and `alive` flags, which is subsumed here by
quantifying over the incoming slot list. -/
def gameTickShared (cfg : Config) (g : Grid) (ps : List GPlayer) (t : ℤ) :
    Grid × List GPlayer :=
  let g1 := markAll cfg.character g ps
  let r := runPlayers cfg t g1 ps
  (unmarkAll cfg.character r.1 r.2, r.2)

/-- The kerb invariant maintained by the row loop of `track::track`
between two rows: the next drawn positions `b0+d0` and `b1+d1` stay in
`[1, race_width-1]`, the next drawn road width stays at least
`minimal_width - 2`, and both drift directions are in `{-1,0,1}`. -/
def KerbInv (cfg : Config) (s : GenState) : Prop :=
  1 ≤ s.b0 + s.d0 ∧ s.b1 + s.d1 ≤ cfg.race_width - 1 ∧
  cfg.minimal_width - 2 ≤ (s.b1 + s.d1) - (s.b0 + s.d0) ∧
  -1 ≤ s.d0 ∧ s.d0 ≤ 1 ∧ -1 ≤ s.d1 ∧ s.d1 ≤ 1

/-- The all-zero `drand()` oracle stream. -/
def zeroQ : ℕ → ℚ := fun _ => 0

/-- The all-zero `rand()` oracle stream. -/
def zeroN : ℕ → ℕ := fun _ => 0

/-- A `rand()` oracle stream that alternates between blocks of five draws
of `2` and five draws of `0` (each turn re-roll loop of a row with
`turn_chance = 1` consumes exactly five draws, so with it the left kerb
drifts right and the right kerb drifts left on every row). -/
def irK : ℕ → ℕ := fun n => if (n / 5) % 2 = 0 then 2 else 0

/-- The configuration of the spec scenario behind claim C1:
`race_length = 500`, `race_width = 80`, `minimal_width = 40`, one player,
zero rock and turn chance (remaining fields as in `settings.reset`). -/
def cfgC1 : Config := ⟨500, 80, 40, 10, 1, 5, '^', 0, 0, true, true, 24⟩

/-- A configuration that satisfies the generator precondition
(`minimal_width ≤ race_width`) but drives the very first kerb draw out
of bounds: `minimal_width = race_width = 8` puts the right kerb at
column `(8*3+8)/4 = 8 = race_width`. -/
def cfg8 : Config := ⟨1, 8, 8, 10, 1, 5, '^', 0, 0, true, true, 24⟩

/-- A configuration with `minimal_width = 2` and `turn_chance = 1` whose
kerbs, under the oracle stream `irK`, drift towards each other by one
column per row until they coincide. -/
def cfgK : Config := ⟨4, 10, 2, 10, 1, 5, '^', 0, 1, true, true, 24⟩

/-- A small valid configuration (`minimal_width = 3`,
`race_width = 7 = minimal_width + 4`) used to instantiate the generator
theorems. -/
def cfg6 : Config := ⟨2, 7, 3, 10, 1, 5, '^', 0, 0, true, true, 24⟩

/-- A configuration reachable on a 12 column terminal: the auto-derived
`race_width` is 12 and the auto-derived `minimal_width` is
`min(1*10*2.5, 12-2) = 10`; one player on a non-shared track starts at
`x = race_width/2 = 6` while the car is 10 columns wide. -/
def cfgN : Config := ⟨30, 12, 10, 10, 1, 5, '^', 0, 0, true, false, 24⟩

/-- A concrete player state used to instantiate the tick theorems: one
row away from the finish line, viewport already at the top. -/
def pFin : Player :=
  { last_move := -INF, y := 1, x := 30, top_line := 0, command_x := 0,
    command_y := 0, screen_height := 24, car := carImage 10 }

/-! ## Pointwise behaviour of the conditional cell-writing folds -/

/-- Both `track::mark` and `track::unmark` are folds that overwrite a
cell with `c2` exactly when it currently holds `c1`; pointwise, a cell
ends as `c2` iff it is under some dot and held `c1`, and is untouched
otherwise. -/
theorem writeFold_apply (c1 c2 : Char) (y x : ℤ) (dots : List (ℤ × ℤ)) :
    ∀ (g : Grid) (a b : ℤ),
      (dots.foldl
        (fun g' d =>
          if g' (y + d.1) (x + d.2) = c1 then setCell g' (y + d.1) (x + d.2) c2
          else g') g) a b
      = if (dots.any (fun d => a = y + d.1 && b = x + d.2)) = true ∧ g a b = c1
        then c2 else g a b := by
  induction dots with
  | nil => intro g a b; simp
  | cons d ds ih =>
    intro g a b
    rw [List.foldl_cons, ih]
    simp only [List.any_cons, Bool.or_eq_true]
    by_cases hd : a = y + d.1 ∧ b = x + d.2
    · have hpd : g (y + d.1) (x + d.2) = g a b := by rw [hd.1, hd.2]
      by_cases hg : g a b = c1
      · rw [if_pos (hpd.trans hg)]
        have hset : setCell g (y + d.1) (x + d.2) c2 a b = c2 := by
          simp [setCell, hd]
        rw [hset]
        have hmem : (decide (a = y + d.1) && decide (b = x + d.2)) = true := by
          simp [hd.1, hd.2]
        by_cases h2 : (ds.any fun d => a = y + d.1 && b = x + d.2) = true ∧ c2 = c1
        · rw [if_pos h2, if_pos ⟨Or.inl hmem, hg⟩]
        · rw [if_neg h2, if_pos ⟨Or.inl hmem, hg⟩]
      · rw [if_neg (fun hc => hg (hpd.symm.trans hc))]
        have : ¬ ((ds.any fun d => a = y + d.1 && b = x + d.2) = true ∧ g a b = c1) :=
          fun hc => hg hc.2
        rw [if_neg this,
          if_neg (fun hc : (_ ∨ _) ∧ g a b = c1 => hg hc.2)]
    · have hstep :
          (if g (y + d.1) (x + d.2) = c1
            then setCell g (y + d.1) (x + d.2) c2 else g) a b = g a b := by
        by_cases hc : g (y + d.1) (x + d.2) = c1
        · rw [if_pos hc]; simp [setCell, hd]
        · rw [if_neg hc]
      rw [hstep]
      have hmem : (decide (a = y + d.1) && decide (b = x + d.2)) ≠ true := by
        simpa using hd
      by_cases h2 : (ds.any fun d => a = y + d.1 && b = x + d.2) = true ∧ g a b = c1
      · rw [if_pos h2, if_pos ⟨Or.inr h2.1, h2.2⟩]
      · rw [if_neg h2]
        rw [if_neg]
        intro hc
        rcases hc.1 with h | h
        · exact hmem h
        · exact h2 ⟨h, hc.2⟩

/-- Pointwise value of `track::mark`: a cell becomes the car character
iff it lies under the car footprint and was empty; otherwise it is
unchanged. -/
theorem mark_apply (ch : Char) (g : Grid) (y x : ℤ) (car : CarImage) (a b : ℤ) :
    mark ch g y x car a b
      = if inFp car y x a b = true ∧ g a b = ' ' then ch else g a b := by
  unfold mark inFp
  exact writeFold_apply ' ' ch y x car.dots g a b

/-- Pointwise value of `track::unmark`: a cell becomes empty iff it lies
under the car footprint and held the car character; otherwise it is
unchanged. -/
theorem unmark_apply (ch : Char) (g : Grid) (y x : ℤ) (car : CarImage) (a b : ℤ) :
    unmark ch g y x car a b
      = if inFp car y x a b = true ∧ g a b = ch then ' ' else g a b := by
  unfold unmark inFp
  exact writeFold_apply ch ' ' y x car.dots g a b

/-! ## Claim C3: the mark / unmark round trip -/

/-- C3 (amended): marking and then unmarking the same car at the same
position restores the track exactly, provided no cell under the car
footprint already holds the car character before the mark.  (With no
intervening overlapping mark, as the claim assumes; the extra proviso is
forced by `C3_roundtrip_cex`.) -/
theorem C3_roundtrip (ch : Char) (g : Grid) (y x : ℤ) (car : CarImage)
    (h : ∀ d ∈ car.dots, g (y + d.1) (x + d.2) ≠ ch) :
    unmark ch (mark ch g y x car) y x car = g := by
  funext a b
  rw [unmark_apply, mark_apply]
  by_cases hf : inFp car y x a b = true
  · have hab : g a b ≠ ch := by
      rcases List.any_eq_true.mp hf with ⟨d, hdm, hdd⟩
      simp only [Bool.and_eq_true, decide_eq_true_eq] at hdd
      rw [hdd.1, hdd.2]
      exact h d hdm
    by_cases hg : g a b = ' '
    · have hinner : (if inFp car y x a b = true ∧ g a b = ' ' then ch else g a b) = ch :=
        if_pos ⟨hf, hg⟩
      rw [hinner]
      have houter : (if inFp car y x a b = true ∧ ch = ch then ' ' else ch) = ' ' :=
        if_pos ⟨hf, rfl⟩
      rw [houter]
      exact hg.symm
    · have hinner : (if inFp car y x a b = true ∧ g a b = ' ' then ch else g a b) = g a b :=
        if_neg (fun hc => hg hc.2)
      rw [hinner]
      exact if_neg (fun hc => hab hc.2)
  · have hinner : (if inFp car y x a b = true ∧ g a b = ' ' then ch else g a b) = g a b :=
      if_neg (fun hc => hf hc.1)
    rw [hinner]
    exact if_neg (fun hc => hf hc.1)

set_option maxRecDepth 10000 in
/-- C3 counterexample to the claim as stated: over the track whose only
non-empty cell is the car character itself at `(0,0)`, marking and then
unmarking a size-5 car at `(0,0)` erases that cell, so the track is not
restored even though no other mark happened in between. -/
theorem C3_roundtrip_cex :
    unmark '^' (mark '^' (setCell (fun _ _ => ' ') 0 0 '^') 0 0 (carImage 5)) 0 0
        (carImage 5) 0 0
      ≠ (setCell (fun _ _ => ' ') 0 0 '^') 0 0 := by
  decide

/-- Witness for `C3_roundtrip` at a concrete input. -/
theorem C3_roundtrip_witness :
    (∀ d ∈ (carImage 5).dots, (fun _ _ => ' ' : Grid) (0 + d.1) (0 + d.2) ≠ '^') ∧
    unmark '^' (mark '^' (fun _ _ => ' ') 0 0 (carImage 5)) 0 0 (carImage 5)
      = (fun _ _ => ' ') :=
  ⟨by decide, C3_roundtrip '^' (fun _ _ => ' ') 0 0 (carImage 5) (by decide)⟩

/-! ## Claim C8: mark writes only empty cells -/

/-- C8: `track::mark` never changes a cell that is not empty: any cell
holding a rock, kerb glyph, distance digit or car marker is left exactly
as it was, i.e. the mark is a per-cell no-op wherever the cell under the
footprint is non-empty. -/
theorem C8_mark_only_empty (ch : Char) (g : Grid) (y x : ℤ) (car : CarImage)
    (a b : ℤ) (h : g a b ≠ ' ') :
    mark ch g y x car a b = g a b := by
  rw [mark_apply]
  exact if_neg (fun hc => h hc.2)

/-- Witness for `C8_mark_only_empty`: a rock cell under the footprint of
a size-5 car survives the mark. -/
theorem C8_mark_only_empty_witness :
    ((setCell (fun _ _ => ' ') 2 3 '*') 2 3 ≠ ' ') ∧
    mark '^' (setCell (fun _ _ => ' ') 2 3 '*') 0 0 (carImage 5) 2 3
      = (setCell (fun _ _ => ' ') 2 3 '*') 2 3 :=
  ⟨by decide, C8_mark_only_empty '^' (setCell (fun _ _ => ' ') 2 3 '*') 0 0
    (carImage 5) 2 3 (by decide)⟩

/-! ## Claim C5: the segment rasterizer -/

/-- Characterization of the rasterizing fold of `car_image::_line`: it
appends, in column order, exactly one dot `(segY .., i)` per column, and
sets exactly those pixels of the storage. -/
theorem lineFold_apply (y1 x1 y2 x2 : ℤ) (l : List ℤ) :
    ∀ (st : ℤ → ℤ → Bool) (ds : List (ℤ × ℤ)),
      (l.foldl
        (fun a i => (setTrue a.1 (segY y1 x1 y2 x2 i) i, a.2 ++ [(segY y1 x1 y2 x2 i, i)]))
        (st, ds)).2
        = ds ++ l.map (fun i => (segY y1 x1 y2 x2 i, i)) ∧
      ∀ p q,
        (l.foldl
          (fun a i => (setTrue a.1 (segY y1 x1 y2 x2 i) i, a.2 ++ [(segY y1 x1 y2 x2 i, i)]))
          (st, ds)).1 p q
        = (st p q ||
            l.any (fun i => decide (p = segY y1 x1 y2 x2 i) && decide (q = i))) := by
  induction l with
  | nil => intro st ds; simp
  | cons i is ih =>
    intro st ds
    rw [List.foldl_cons]
    refine ⟨?_, ?_⟩
    · rw [(ih _ _).1]
      simp
    · intro p q
      rw [(ih _ _).2]
      simp only [List.any_cons]
      by_cases h1 : p = segY y1 x1 y2 x2 i
      · by_cases h2 : q = i
        · simp [setTrue, h1, h2]
        · simp [setTrue, h1, h2, Bool.or_assoc]
      · simp [setTrue, h1, Bool.or_assoc]

/-- C5 (amended): `car_image::_line` first swaps the two endpoints
together when `x2 < x1`; then, for each integer column `i` in
`[x1, x2]`, exactly the cell `(y1 + rt((y2-y1)*(i-x1)/(x2-x1)), i)` is
marked occupied and appended to the ordered dot list — where `rt` is
truncation toward zero of the value plus one half (`(int)(v + 0.5)`).
This agrees with round-half-up for nonnegative `v` but rounds values in
`(-1/2, 0)` up to `0` instead of down, which is what the code does on
descending segments (see `C5_rounding_cex`). -/
theorem C5_line_rasterizes (y1 x1 y2 x2 : ℤ) (st : ℤ → ℤ → Bool)
    (ds : List (ℤ × ℤ)) :
    (x2 < x1 → lineSeg y1 x1 y2 x2 (st, ds) = lineSeg y2 x2 y1 x1 (st, ds)) ∧
    (x1 ≤ x2 →
      (lineSeg y1 x1 y2 x2 (st, ds)).2
        = ds ++ (intRange x1 x2).map (fun i => (segY y1 x1 y2 x2 i, i)) ∧
      ∀ p q,
        (lineSeg y1 x1 y2 x2 (st, ds)).1 p q
        = (st p q ||
            (intRange x1 x2).any
              (fun i => decide (p = segY y1 x1 y2 x2 i) && decide (q = i)))) := by
  constructor
  · intro hlt
    unfold lineSeg
    rw [if_pos hlt, if_neg (not_lt.mpr hlt.le)]
  · intro hle
    unfold lineSeg
    rw [if_neg (not_lt.mpr hle)]
    unfold lineCore
    exact lineFold_apply y1 x1 y2 x2 (intRange x1 x2) st ds

/-- Witness for `C5_line_rasterizes` on the third constructor segment of
the size-10 car. -/
theorem C5_line_rasterizes_witness :
    (0 : ℤ) ≤ 9 ∧
    (lineSeg 4 0 6 9 (clearStorage, [])).2
      = [] ++ (intRange 0 9).map (fun i => (segY 4 0 6 9 i, i)) :=
  ⟨by decide, ((C5_line_rasterizes 4 0 6 9 clearStorage []).2 (by decide)).1⟩

set_option maxRecDepth 10000 in
/-- C5 counterexample to the round-half-up wording: the second segment
of the size-10 car constructor is `_line(2, 9, 4, 0)`; after the swap it
runs from `(4,0)` to `(2,9)`.  At column 3 the code computes
`4 + (int)(-2*3/9.0 + 0.5) = 4` and appends `(4,3)` (also visible in the
full dot list of `carImage 10`), whereas the round-half-up formula of
the claim yields row `4 + ⌊-2/3 + 1/2⌋ = 3`. -/
theorem C5_rounding_cex :
    (4, 3) ∈ (lineSeg 2 9 4 0 (clearStorage, [])).2 ∧
    (4, 3) ∈ (carImage 10).dots ∧
    (4, 3) ∉ specSegDots 4 0 2 9 ∧
    (3, 3) ∈ specSegDots 4 0 2 9 := by
  decide

/-! ## Claims C4 and C7: the per-tick movement law -/

/-- C4: a movement step of `player_handler::tick` executes if and only
if `lastMoveTime + ⌊(currentRow - viewportTop)/speedBase⌋ < currentTime`
(for the reachable states, with `viewportTop ≤ currentRow` and a
positive speed base, the truncating C division in the code coincides
with the floor of the spec); when the gate fails the tick returns the
player state unchanged together with `survives = true`, and when it
passes, the returned state is the moved state and records the move
time. -/
theorem C4_move_gate (cfg : Config) (g : Grid) (p : Player) (t : ℤ)
    (hsb : 0 < cfg.speed_base) (hyt : p.top_line ≤ p.y) :
    Int.fdiv (p.y - p.top_line) cfg.speed_base
      = Int.tdiv (p.y - p.top_line) cfg.speed_base ∧
    (¬ (p.last_move + Int.fdiv (p.y - p.top_line) cfg.speed_base < t) →
      tick cfg g p t = (p, true)) ∧
    (p.last_move + Int.fdiv (p.y - p.top_line) cfg.speed_base < t →
      (tick cfg g p t).1 = movedState cfg p t ∧
      (tick cfg g p t).1.last_move = t ∧ p.last_move < t) := by
  have hd : Int.fdiv (p.y - p.top_line) cfg.speed_base
      = Int.tdiv (p.y - p.top_line) cfg.speed_base :=
    Int.fdiv_eq_tdiv (by omega) hsb.le
  refine ⟨hd, ?_, ?_⟩
  · intro hng
    rw [hd] at hng
    unfold tick
    rw [if_neg hng]
  · intro hg2
    have hnn : 0 ≤ Int.fdiv (p.y - p.top_line) cfg.speed_base :=
      Int.fdiv_nonneg (by omega) hsb.le
    rw [hd] at hg2
    rw [hd] at hnn
    have hfst : (tick cfg g p t).1 = movedState cfg p t := by
      simp only [tick, if_pos hg2]
      by_cases hy : (movedState cfg p t).y ≤ 0
      · rw [if_pos hy]
      · rw [if_neg hy]
    refine ⟨hfst, ?_, by omega⟩
    rw [hfst]
    simp [movedState]

/-- Witness for `C4_move_gate` at a concrete player state. -/
theorem C4_move_gate_witness :
    (0 < cfgC1.speed_base ∧ pFin.top_line ≤ pFin.y) ∧
    Int.fdiv (pFin.y - pFin.top_line) cfgC1.speed_base
      = Int.tdiv (pFin.y - pFin.top_line) cfgC1.speed_base :=
  ⟨⟨by decide, by decide⟩,
    (C4_move_gate cfgC1 (fun _ _ => ' ') pFin 1 (by decide) (by decide)).1⟩

/-- C7: in a gate-passing tick whose moved and vertically clamped row
position reaches `y ≤ 0`, the tick reports `survives = false` with the
moved state, the outcome is `finished` (the early-return path), not
`crashed`, and the result does not depend on the track at all — so no
collision check or rendering has consulted the track for that tick. -/
theorem C7_finish_before_collision (cfg : Config) (g : Grid) (p : Player) (t : ℤ)
    (hgate : p.last_move + Int.tdiv (p.y - p.top_line) cfg.speed_base < t)
    (hy : (movedState cfg p t).y ≤ 0) :
    tick cfg g p t = (movedState cfg p t, false) ∧
    tickOutcome cfg g p t = Outcome.finished ∧
    ∀ g' : Grid, tick cfg g' p t = tick cfg g p t := by
  have h1 : tick cfg g p t = (movedState cfg p t, false) := by
    simp only [tick, if_pos hgate, if_pos hy]
  have h2 : tickOutcome cfg g p t = Outcome.finished := by
    simp only [tickOutcome, if_pos hgate, if_pos hy]
  refine ⟨h1, h2, ?_⟩
  intro g'
  rw [h1]
  simp only [tick, if_pos hgate, if_pos hy]

/-- Witness for `C7_finish_before_collision` at a concrete player one
row from the finish line. -/
theorem C7_finish_before_collision_witness :
    (pFin.last_move + Int.tdiv (pFin.y - pFin.top_line) cfgC1.speed_base < 1 ∧
      (movedState cfgC1 pFin 1).y ≤ 0) ∧
    tick cfgC1 (fun _ _ => ' ') pFin 1 = (movedState cfgC1 pFin 1, false) :=
  ⟨⟨by decide, by decide⟩,
    (C7_finish_before_collision cfgC1 (fun _ _ => ' ') pFin 1 (by decide) (by decide)).1⟩

/-! ## Claim C10: bounds of the collision scan -/

/-- C10 fails on the code: the lateral position `x` is never clamped, so
a reachable player state issues `taken` queries at columns at or beyond
`race_width`.  Concretely, on a 12 column terminal (`race_width = 12`,
auto-derived `minimal_width = 10`, one player, non-shared track) the
initial player sits at `x = 6` with a 10 column wide car, and its very
first movement tick already scans the cell `(19, 12)` with column
`12 ≥ race_width` — an out-of-bounds `circuit[i][j]` access in the C++.
The vertical part of the scan stays in bounds; only the column bound is
violated. -/
theorem C10_scan_out_of_bounds :
    Reachable cfgN (trackGrid cfgN zeroQ (fun _ => 1)) (initPlayer cfgN 0) 0 ∧
    (19, 12) ∈ tickScanCells cfgN (initPlayer cfgN 0) 1 ∧
    ¬ ((12 : ℤ) < cfgN.race_width) := by
  refine ⟨Reachable.init 0 ⟨by decide, by decide⟩, ?_, by decide⟩
  decide

/-! ## Claim C2: the shared-track tick fully reverts the car marks

Throughout, `g0` is the grid as it was before the tick, assumed to hold
no cell equal to the car character (the character is `'^'` and the
terrain glyphs are kerbs, rocks, digits and spaces; the previous tick
restored exactly this state).  The two invariants carried through all
phases are: every cell either equals its pre-tick value or is an empty
pre-tick cell currently holding the car character (`Inv`), and every
cell currently holding the car character lies under a known set of car
footprints (`Cov`). -/

/-- Marking preserves the pointwise invariant against the pre-tick
grid. -/
theorem mark_inv (ch : Char) (g0 G : Grid) (y x : ℤ) (car : CarImage)
    (hI : ∀ a b, G a b = g0 a b ∨ (g0 a b = ' ' ∧ G a b = ch)) :
    ∀ a b, mark ch G y x car a b = g0 a b ∨
      (g0 a b = ' ' ∧ mark ch G y x car a b = ch) := by
  intro a b
  rw [mark_apply]
  by_cases hc : inFp car y x a b = true ∧ G a b = ' '
  · rw [if_pos hc]
    refine Or.inr ⟨?_, rfl⟩
    rcases hI a b with h | h
    · rw [← h, hc.2]
    · exact h.1
  · rw [if_neg hc]
    exact hI a b

/-- Unmarking preserves the pointwise invariant against a pre-tick grid
that holds no car-character cell. -/
theorem unmark_inv (ch : Char) (g0 G : Grid) (y x : ℤ) (car : CarImage)
    (hg0 : ∀ a b, g0 a b ≠ ch)
    (hI : ∀ a b, G a b = g0 a b ∨ (g0 a b = ' ' ∧ G a b = ch)) :
    ∀ a b, unmark ch G y x car a b = g0 a b ∨
      (g0 a b = ' ' ∧ unmark ch G y x car a b = ch) := by
  intro a b
  rw [unmark_apply]
  by_cases hc : inFp car y x a b = true ∧ G a b = ch
  · rw [if_pos hc]
    rcases hI a b with h | h
    · exact absurd (h ▸ hc.2) (hg0 a b)
    · exact Or.inl h.1.symm
  · rw [if_neg hc]
    exact hI a b

/-- A cell holding the car character after a mark either held it before
or lies under the newly marked footprint. -/
theorem mark_cov (ch : Char) (G : Grid) (y x : ℤ) (car : CarImage)
    (P : ℤ → ℤ → Prop) (hC : ∀ a b, G a b = ch → P a b) :
    ∀ a b, mark ch G y x car a b = ch →
      P a b ∨ inFp car y x a b = true := by
  intro a b hm
  rw [mark_apply] at hm
  by_cases hc : inFp car y x a b = true ∧ G a b = ' '
  · exact Or.inr hc.1
  · rw [if_neg hc] at hm
    exact Or.inl (hC a b hm)

/-- After an unmark (with a car character distinct from space), no cell
under the unmarked footprint holds the car character any more, and any
cell still holding it was already covered before. -/
theorem unmark_cov (ch : Char) (hch : ch ≠ ' ') (G : Grid) (y x : ℤ)
    (car : CarImage) (P : ℤ → ℤ → Prop) (hC : ∀ a b, G a b = ch → P a b) :
    ∀ a b, unmark ch G y x car a b = ch →
      P a b ∧ inFp car y x a b = false := by
  intro a b hm
  rw [unmark_apply] at hm
  by_cases hc : inFp car y x a b = true ∧ G a b = ch
  · rw [if_pos hc] at hm
    exact absurd hm.symm hch
  · rw [if_neg hc] at hm
    refine ⟨hC a b hm, ?_⟩
    exact Bool.eq_false_iff.mpr (fun h => hc ⟨h, hm⟩)

/-- The mark-all phase preserves the pointwise invariant. -/
theorem markAll_inv (ch : Char) (g0 : Grid) (ps : List GPlayer) :
    ∀ G : Grid,
      (∀ a b, G a b = g0 a b ∨ (g0 a b = ' ' ∧ G a b = ch)) →
      ∀ a b, markAll ch G ps a b = g0 a b ∨
        (g0 a b = ' ' ∧ markAll ch G ps a b = ch) := by
  induction ps with
  | nil => intro G hI; simpa [markAll] using hI
  | cons q rest ih =>
    intro G hI
    have hstep : ∀ a b,
        (if q.alive then mark ch G q.p.y q.p.x q.p.car else G) a b = g0 a b ∨
        (g0 a b = ' ' ∧
          (if q.alive then mark ch G q.p.y q.p.x q.p.car else G) a b = ch) := by
      by_cases hq : q.alive
      · simpa [hq] using mark_inv ch g0 G q.p.y q.p.x q.p.car hI
      · simpa [hq] using hI
    have := ih _ hstep
    simpa [markAll, List.foldl_cons] using this

/-- Every car-character cell after the mark-all phase lies under the
footprint of an alive player of the list, unless it was covered
before. -/
theorem markAll_cov (ch : Char) (ps : List GPlayer) :
    ∀ (G : Grid) (P : ℤ → ℤ → Prop),
      (∀ a b, G a b = ch → P a b) →
      ∀ a b, markAll ch G ps a b = ch →
        P a b ∨ ∃ q ∈ ps, q.alive = true ∧ inFp q.p.car q.p.y q.p.x a b = true := by
  induction ps with
  | nil =>
    intro G P hC a b h
    exact Or.inl (hC a b (by simpa [markAll] using h))
  | cons q rest ih =>
    intro G P hC a b h
    have hstep : ∀ a b,
        (if q.alive then mark ch G q.p.y q.p.x q.p.car else G) a b = ch →
        (fun a b => P a b ∨ (q.alive = true ∧ inFp q.p.car q.p.y q.p.x a b = true)) a b := by
      intro a b hm
      by_cases hq : q.alive
      · rw [if_pos hq] at hm
        rcases mark_cov ch G q.p.y q.p.x q.p.car P hC a b hm with h1 | h1
        · exact Or.inl h1
        · exact Or.inr ⟨hq, h1⟩
      · rw [if_neg hq] at hm
        exact Or.inl (hC a b hm)
    have h2 := ih _ _ hstep a b (by simpa [markAll, List.foldl_cons] using h)
    rcases h2 with h2 | ⟨q', hq', h3⟩
    · rcases h2 with h2 | h2
      · exact Or.inl h2
      · exact Or.inr ⟨q, List.mem_cons_self q rest, h2⟩
    · exact Or.inr ⟨q', List.mem_cons_of_mem q hq', h3⟩

/-- The per-player unmark-tick-mark loop preserves the pointwise
invariant, and afterwards every car-character cell lies under the
footprint of one of the returned (current-position) player slots, unless
covered by the ambient set `P`. -/
theorem runPlayers_spec (cfg : Config) (t : ℤ) (g0 : Grid)
    (hch : cfg.character ≠ ' ') (hg0 : ∀ a b, g0 a b ≠ cfg.character) :
    ∀ (todo : List GPlayer) (G : Grid) (P : ℤ → ℤ → Prop),
      (∀ a b, G a b = g0 a b ∨ (g0 a b = ' ' ∧ G a b = cfg.character)) →
      (∀ a b, G a b = cfg.character →
        P a b ∨ ∃ q ∈ todo, q.alive = true ∧ inFp q.p.car q.p.y q.p.x a b = true) →
      (∀ a b, (runPlayers cfg t G todo).1 a b = g0 a b ∨
        (g0 a b = ' ' ∧ (runPlayers cfg t G todo).1 a b = cfg.character)) ∧
      (∀ a b, (runPlayers cfg t G todo).1 a b = cfg.character →
        P a b ∨ ∃ q ∈ (runPlayers cfg t G todo).2,
          inFp q.p.car q.p.y q.p.x a b = true) := by
  intro todo
  induction todo with
  | nil =>
    intro G P hI hC
    refine ⟨by simpa [runPlayers] using hI, ?_⟩
    intro a b h
    rcases hC a b (by simpa [runPlayers] using h) with h1 | ⟨q, hq, _⟩
    · exact Or.inl h1
    · exact absurd hq (List.not_mem_nil q)
  | cons q rest ih =>
    intro G P hI hC
    by_cases hq : q.alive
    · have heq : runPlayers cfg t G (q :: rest) =
          ((runPlayers cfg t
              (mark cfg.character
                (unmark cfg.character G q.p.y q.p.x q.p.car)
                (tick cfg (unmark cfg.character G q.p.y q.p.x q.p.car) q.p t).1.y
                (tick cfg (unmark cfg.character G q.p.y q.p.x q.p.car) q.p t).1.x
                (tick cfg (unmark cfg.character G q.p.y q.p.x q.p.car) q.p t).1.car)
              rest).1,
            ⟨(tick cfg (unmark cfg.character G q.p.y q.p.x q.p.car) q.p t).1,
              (tick cfg (unmark cfg.character G q.p.y q.p.x q.p.car) q.p t).2⟩ ::
            (runPlayers cfg t
              (mark cfg.character
                (unmark cfg.character G q.p.y q.p.x q.p.car)
                (tick cfg (unmark cfg.character G q.p.y q.p.x q.p.car) q.p t).1.y
                (tick cfg (unmark cfg.character G q.p.y q.p.x q.p.car) q.p t).1.x
                (tick cfg (unmark cfg.character G q.p.y q.p.x q.p.car) q.p t).1.car)
              rest).2) := by
        simp [runPlayers, hq]
      set g1 := unmark cfg.character G q.p.y q.p.x q.p.car with hg1
      set pr := tick cfg g1 q.p t with hpr
      set g2 := mark cfg.character g1 pr.1.y pr.1.x pr.1.car with hg2
      have hI1 := unmark_inv cfg.character g0 G q.p.y q.p.x q.p.car hg0 hI
      have hC1 : ∀ a b, g1 a b = cfg.character →
          (P a b ∨ ∃ q' ∈ rest, q'.alive = true ∧
            inFp q'.p.car q'.p.y q'.p.x a b = true) := by
        intro a b hm
        have h2 := unmark_cov cfg.character hch G q.p.y q.p.x q.p.car _ (hC) a b hm
        rcases h2.1 with h3 | ⟨q', hq', h4, h5⟩
        · exact Or.inl h3
        · rcases List.mem_cons.mp hq' with rfl | hmem
          · rw [h2.2] at h5
            exact absurd h5 (by simp)
          · exact Or.inr ⟨q', hmem, h4, h5⟩
      have hI2 := mark_inv cfg.character g0 g1 pr.1.y pr.1.x pr.1.car hI1
      have hC2 : ∀ a b, g2 a b = cfg.character →
          (fun a b => P a b ∨ inFp pr.1.car pr.1.y pr.1.x a b = true) a b ∨
          ∃ q' ∈ rest, q'.alive = true ∧ inFp q'.p.car q'.p.y q'.p.x a b = true := by
        intro a b hm
        rcases mark_cov cfg.character g1 pr.1.y pr.1.x pr.1.car _ hC1 a b hm with h3 | h3
        · rcases h3 with h3 | h3
          · exact Or.inl (Or.inl h3)
          · exact Or.inr h3
        · exact Or.inl (Or.inr h3)
      obtain ⟨hIf, hCf⟩ := ih g2 _ hI2 hC2
      rw [heq]
      refine ⟨hIf, ?_⟩
      intro a b h
      rcases hCf a b h with h3 | ⟨q', hq', h4⟩
      · rcases h3 with h3 | h3
        · exact Or.inl h3
        · exact Or.inr ⟨⟨pr.1, pr.2⟩, List.mem_cons_self _ _, h3⟩
      · exact Or.inr ⟨q', List.mem_cons_of_mem _ hq', h4⟩
    · have heq : runPlayers cfg t G (q :: rest) =
          ((runPlayers cfg t G rest).1, q :: (runPlayers cfg t G rest).2) := by
        simp [runPlayers, hq]
      have hC' : ∀ a b, G a b = cfg.character →
          P a b ∨ ∃ q' ∈ rest, q'.alive = true ∧
            inFp q'.p.car q'.p.y q'.p.x a b = true := by
        intro a b hm
        rcases hC a b hm with h1 | ⟨q', hq', h2, h3⟩
        · exact Or.inl h1
        · rcases List.mem_cons.mp hq' with rfl | hmem
          · exact absurd h2 (by simpa using hq)
          · exact Or.inr ⟨q', hmem, h2, h3⟩
      obtain ⟨hIf, hCf⟩ := ih G P hI hC'
      rw [heq]
      refine ⟨hIf, ?_⟩
      intro a b h
      rcases hCf a b h with h1 | ⟨q', hq', h2⟩
      · exact Or.inl h1
      · exact Or.inr ⟨q', List.mem_cons_of_mem _ hq', h2⟩

/-- The final unmark-all phase restores the pre-tick grid exactly, given
the invariant and that every remaining car-character cell lies under the
footprint of one of the unmarked slots. -/
theorem unmarkAll_restore (ch : Char) (hch : ch ≠ ' ') (g0 : Grid)
    (hg0 : ∀ a b, g0 a b ≠ ch) :
    ∀ (ps : List GPlayer) (G : Grid),
      (∀ a b, G a b = g0 a b ∨ (g0 a b = ' ' ∧ G a b = ch)) →
      (∀ a b, G a b = ch → ∃ q ∈ ps, inFp q.p.car q.p.y q.p.x a b = true) →
      unmarkAll ch G ps = g0 := by
  intro ps
  induction ps with
  | nil =>
    intro G hI hC
    funext a b
    have hnc : G a b ≠ ch := by
      intro h
      rcases hC a b h with ⟨q, hq, _⟩
      exact absurd hq (List.not_mem_nil q)
    rcases hI a b with h | h
    · simpa [unmarkAll] using h
    · exact absurd h.2 hnc
  | cons q rest ih =>
    intro G hI hC
    have hI1 := unmark_inv ch g0 G q.p.y q.p.x q.p.car hg0 hI
    have hC1 : ∀ a b, unmark ch G q.p.y q.p.x q.p.car a b = ch →
        ∃ q' ∈ rest, inFp q'.p.car q'.p.y q'.p.x a b = true := by
      intro a b hm
      have h2 := unmark_cov ch hch G q.p.y q.p.x q.p.car _ hC a b hm
      rcases h2.1 with ⟨q', hq', h3⟩
      rcases List.mem_cons.mp hq' with rfl | hmem
      · rw [h2.2] at h3
        exact absurd h3 (by simp)
      · exact ⟨q', hmem, h3⟩
    have := ih _ hI1 hC1
    simpa [unmarkAll, List.foldl_cons] using this

/-- C2: in shared-track mode, one complete `game::tick` fully reverts
the transient car marks: provided the incoming shared grid holds no
car-character cell (as restored by the previous tick) and the car
character is not the space character, the grid after the final unmark
pass is identical to the grid before the tick — no car-glyph cell
remains and no terrain cell was changed.  The phase ordering of the
claim (all alive players marked before any motion check, each player
unmarked before its own tick and re-marked after) is the definitional
structure of `gameTickShared` / `markAll` / `runPlayers` /
`unmarkAll`. -/
theorem C2_shared_tick_restores (cfg : Config) (g : Grid) (ps : List GPlayer)
    (t : ℤ) (hch : cfg.character ≠ ' ')
    (hg : ∀ a b, g a b ≠ cfg.character) :
    (gameTickShared cfg g ps t).1 = g := by
  have hI0 : ∀ a b, markAll cfg.character g ps a b = g a b ∨
      (g a b = ' ' ∧ markAll cfg.character g ps a b = cfg.character) :=
    markAll_inv cfg.character g ps g (fun a b => Or.inl rfl)
  have hC0 : ∀ a b, markAll cfg.character g ps a b = cfg.character →
      (fun _ _ => False) a b ∨ ∃ q ∈ ps, q.alive = true ∧
        inFp q.p.car q.p.y q.p.x a b = true :=
    markAll_cov cfg.character ps g _ (fun a b h => absurd h (hg a b))
  obtain ⟨hIf, hCf⟩ :=
    runPlayers_spec cfg t g hch hg ps (markAll cfg.character g ps) _ hI0 hC0
  have hCf' : ∀ a b,
      (runPlayers cfg t (markAll cfg.character g ps) ps).1 a b = cfg.character →
      ∃ q ∈ (runPlayers cfg t (markAll cfg.character g ps) ps).2,
        inFp q.p.car q.p.y q.p.x a b = true := by
    intro a b h
    rcases hCf a b h with h1 | h1
    · exact absurd h1 (fun hfalse => hfalse)
    · exact h1
  have := unmarkAll_restore cfg.character hch g hg
    (runPlayers cfg t (markAll cfg.character g ps) ps).2
    (runPlayers cfg t (markAll cfg.character g ps) ps).1 hIf hCf'
  simpa [gameTickShared] using this

/-- Witness for `C2_shared_tick_restores` on a concrete one-player
session over the all-empty grid. -/
theorem C2_shared_tick_restores_witness :
    (cfgC1.character ≠ ' ' ∧ ∀ a b : ℤ, (fun _ _ => ' ' : Grid) a b ≠ cfgC1.character) ∧
    (gameTickShared cfgC1 (fun _ _ => ' ') [⟨initPlayer cfgC1 0, true⟩] 1).1
      = (fun _ _ => ' ') :=
  ⟨⟨by decide, fun a b => (by decide : (' ' : Char) ≠ cfgC1.character)⟩,
    C2_shared_tick_restores cfgC1 (fun _ _ => ' ') [⟨initPlayer cfgC1 0, true⟩] 1
      (by decide) (fun a b => (by decide : (' ' : Char) ≠ cfgC1.character))⟩

/-! ## The kerb invariant of the track generator (claims C1, C6, C9) -/

/-- Bounds for the truncating division by 4 on nonnegative values. -/
theorem tdiv4_bounds (a : ℤ) (ha : 0 ≤ a) :
    4 * Int.tdiv a 4 ≤ a ∧ a < 4 * Int.tdiv a 4 + 4 := by
  rw [Int.tdiv_eq_ediv ha (by norm_num)]
  have h1 := Int.ediv_add_emod a 4
  have h2 := Int.emod_nonneg a (by norm_num : (4 : ℤ) ≠ 0)
  have h3 := Int.emod_lt_of_pos a (by norm_num : (0 : ℤ) < 4)
  omega

/-- The turn re-roll loop keeps the direction in `{-1, 0, 1}`: the body
writes `rand()%3 - 1` and the loop otherwise returns its input. -/
theorem retryLoop_bounds (dr : ℕ → ℚ) (turn : ℚ) (stuck : ℤ → Bool)
    (ir : ℕ → ℕ) :
    ∀ (fuel : ℕ) (d : ℤ) (di ii : ℕ), -1 ≤ d → d ≤ 1 →
      -1 ≤ (retryLoop dr turn stuck ir fuel (d, di, ii)).1 ∧
      (retryLoop dr turn stuck ir fuel (d, di, ii)).1 ≤ 1 := by
  intro fuel
  induction fuel with
  | zero =>
    intro d di ii h1 h2
    exact ⟨h1, h2⟩
  | succ n ih =>
    intro d di ii h1 h2
    have hunf : retryLoop dr turn stuck ir (n + 1) (d, di, ii)
        = if dr di < turn ∨ stuck d = true then
            retryLoop dr turn stuck ir n (((ir ii % 3 : ℕ) : ℤ) - 1, di + 1, ii + 1)
          else (d, di + 1, ii) := rfl
    rw [hunf]
    by_cases hc : dr di < turn ∨ stuck d = true
    · rw [if_pos hc]
      have hm : ir ii % 3 < 3 := Nat.mod_lt _ (by norm_num)
      exact ih _ _ _ (by omega) (by omega)
    · rw [if_neg hc]
      exact ⟨h1, h2⟩

/-- The kerb invariant holds before the first row whenever
`3 ≤ minimal_width` and `minimal_width + 4 ≤ race_width`. -/
theorem kerbInv_init (cfg : Config) (h3 : 3 ≤ cfg.minimal_width)
    (h4 : cfg.minimal_width + 4 ≤ cfg.race_width) :
    KerbInv cfg (initState cfg) := by
  unfold KerbInv initState
  obtain ⟨ha1, ha2⟩ :=
    tdiv4_bounds (cfg.race_width - cfg.minimal_width) (by omega)
  obtain ⟨hb1, hb2⟩ :=
    tdiv4_bounds (cfg.race_width * 3 + cfg.minimal_width) (by omega)
  dsimp only
  omega

/-- The pure arithmetic of the per-row drift direction update (retry
result, minimal width correction, edge sanity check): the kerb invariant
is preserved and a sub-minimal drawn width never shrinks further. -/
theorem dirStep_bounds (m w B0 B1 r0 r1 : ℤ)
    (h3 : 3 ≤ m) (h4 : m + 4 ≤ w)
    (hA : 1 ≤ B0) (hB : B1 ≤ w - 1) (hW : m - 2 ≤ B1 - B0)
    (hr0l : -1 ≤ r0) (hr0r : r0 ≤ 1) (hr1l : -1 ≤ r1) (hr1r : r1 ≤ 1) :
    (1 ≤ B0 + (if B0 + (if B1 - B0 < m then -1 else r0) = 0 then 0
        else if B1 - B0 < m then -1 else r0) ∧
      B1 + (if B1 + (if B1 - B0 < m then 1 else r1) = w then 0
        else if B1 - B0 < m then 1 else r1) ≤ w - 1 ∧
      m - 2 ≤
        (B1 + (if B1 + (if B1 - B0 < m then 1 else r1) = w then 0
          else if B1 - B0 < m then 1 else r1)) -
        (B0 + (if B0 + (if B1 - B0 < m then -1 else r0) = 0 then 0
          else if B1 - B0 < m then -1 else r0)) ∧
      -1 ≤ (if B0 + (if B1 - B0 < m then -1 else r0) = 0 then 0
        else if B1 - B0 < m then -1 else r0) ∧
      (if B0 + (if B1 - B0 < m then -1 else r0) = 0 then 0
        else if B1 - B0 < m then -1 else r0) ≤ 1 ∧
      -1 ≤ (if B1 + (if B1 - B0 < m then 1 else r1) = w then 0
        else if B1 - B0 < m then 1 else r1) ∧
      (if B1 + (if B1 - B0 < m then 1 else r1) = w then 0
        else if B1 - B0 < m then 1 else r1) ≤ 1) ∧
    (B1 - B0 < m →
      B1 - B0 ≤
        (B1 + (if B1 + (if B1 - B0 < m then 1 else r1) = w then 0
          else if B1 - B0 < m then 1 else r1)) -
        (B0 + (if B0 + (if B1 - B0 < m then -1 else r0) = 0 then 0
          else if B1 - B0 < m then -1 else r0))) := by
  split_ifs <;> omega

/-- One row step preserves the kerb invariant, and a row whose drawn
width fell below the minimal width never gets narrower on the next
row. -/
theorem stepRow_inv (cfg : Config) (dr : ℕ → ℚ) (ir : ℕ → ℕ) (i : ℤ)
    (s : GenState) (h3 : 3 ≤ cfg.minimal_width)
    (h4 : cfg.minimal_width + 4 ≤ cfg.race_width) (hs : KerbInv cfg s) :
    KerbInv cfg ((stepRow cfg dr ir i s).1) ∧
    ((s.b1 + s.d1) - (s.b0 + s.d0) < cfg.minimal_width →
      (s.b1 + s.d1) - (s.b0 + s.d0) ≤
        (((stepRow cfg dr ir i s).1).b1 + ((stepRow cfg dr ir i s).1).d1) -
          (((stepRow cfg dr ir i s).1).b0 + ((stepRow cfg dr ir i s).1).d0)) := by
  obtain ⟨hA, hB, hW, hd0l, hd0r, hd1l, hd1r⟩ := hs
  unfold KerbInv stepRow
  dsimp only
  obtain ⟨hr0l, hr0r⟩ :=
    retryLoop_bounds dr cfg.turn_chance
      (fun d => s.b0 + s.d0 + d == 0) ir 5 s.d0
      (s.di + 1)
      (if decide (dr s.di < cfg.rock_chance) = true then s.ii + 1 else s.ii)
      hd0l hd0r
  obtain ⟨hr1l, hr1r⟩ :=
    retryLoop_bounds dr cfg.turn_chance
      (fun d => s.b1 + s.d1 + d == cfg.race_width) ir 5 s.d1
      (retryLoop dr cfg.turn_chance (fun d => s.b0 + s.d0 + d == 0) ir 5
        (s.d0, s.di + 1,
          if decide (dr s.di < cfg.rock_chance) = true then s.ii + 1 else s.ii)).2.1
      (retryLoop dr cfg.turn_chance (fun d => s.b0 + s.d0 + d == 0) ir 5
        (s.d0, s.di + 1,
          if decide (dr s.di < cfg.rock_chance) = true then s.ii + 1 else s.ii)).2.2
      hd1l hd1r
  exact dirStep_bounds cfg.minimal_width cfg.race_width (s.b0 + s.d0)
    (s.b1 + s.d1) _ _ h3 h4 hA hB hW hr0l hr0r hr1l hr1r

/-- The kerb invariant holds at every generation step. -/
theorem kerbInv_genFrom (cfg : Config) (dr : ℕ → ℚ) (ir : ℕ → ℕ)
    (h3 : 3 ≤ cfg.minimal_width) (h4 : cfg.minimal_width + 4 ≤ cfg.race_width) :
    ∀ k : ℕ, KerbInv cfg (genFrom cfg dr ir k) := by
  intro k
  induction k with
  | zero => exact kerbInv_init cfg h3 h4
  | succ n ih =>
    exact (stepRow_inv cfg dr ir ((cfg.race_length : ℤ) - 1 - (n : ℤ))
      (genFrom cfg dr ir n) h3 h4 ih).1

/-- The distance digit is never a kerb glyph. -/
theorem isKerb_digitChar (i : ℤ) : isKerb (digitChar i) = false := by
  unfold digitChar
  have h2 : Int.tmod i 10 < 10 := Int.tmod_lt_of_pos i (by norm_num)
  have h10 : (Int.tmod i 10).toNat < 10 := by omega
  set n := (Int.tmod i 10).toNat with hn
  interval_cases n <;> decide

/-- Drawing a kerb with an in-range direction makes exactly the kerb
position a kerb cell and leaves every other cell alone. -/
theorem isKerb_drawKerb (row : ℤ → Char) (p d j : ℤ) (hdl : -1 ≤ d)
    (hdr : d ≤ 1) :
    (isKerb (drawKerb row p d j) = true) ↔ (j = p ∨ isKerb (row j) = true) := by
  have hcase : d = -1 ∨ d = 0 ∨ d = 1 := by omega
  by_cases hj : j = p
  · subst hj
    rcases hcase with h | h | h <;> subst h <;> simp [drawKerb, setRow, isKerb]
  · rcases hcase with h | h | h <;> subst h <;> simp [drawKerb, setRow, hj]

/-- The kerb cells of a generated row are exactly the two drawn kerb
positions. -/
theorem rowAt_kerb_iff (cfg : Config) (dr : ℕ → ℚ) (ir : ℕ → ℕ) (k : ℕ)
    (hd0l : -1 ≤ (genFrom cfg dr ir k).d0) (hd0r : (genFrom cfg dr ir k).d0 ≤ 1)
    (hd1l : -1 ≤ (genFrom cfg dr ir k).d1) (hd1r : (genFrom cfg dr ir k).d1 ≤ 1) :
    ∀ j : ℤ, (isKerb (rowAt cfg dr ir k j) = true) ↔
      (j = (genFrom cfg dr ir k).b0 + (genFrom cfg dr ir k).d0 ∨
       j = (genFrom cfg dr ir k).b1 + (genFrom cfg dr ir k).d1) := by
  intro j
  unfold rowAt stepRow
  dsimp only
  rw [isKerb_drawKerb _ _ _ _ hd1l hd1r, isKerb_drawKerb _ _ _ _ hd0l hd0r]
  have hbase : isKerb
      ((if decide (dr (genFrom cfg dr ir k).di < cfg.rock_chance) = true
        then setRow (setRow (fun _ => ' ') 0
            (digitChar ((cfg.race_length : ℤ) - 1 - (k : ℤ))))
          (Int.tmod ((ir (genFrom cfg dr ir k).ii : ℕ) : ℤ) cfg.race_width) '*'
        else setRow (fun _ => ' ') 0
          (digitChar ((cfg.race_length : ℤ) - 1 - (k : ℤ)))) j) = false := by
    by_cases hr : decide (dr (genFrom cfg dr ir k).di < cfg.rock_chance) = true
    · rw [if_pos hr]
      unfold setRow
      split_ifs <;> first | rfl | exact isKerb_digitChar _
    · rw [if_neg hr]
      unfold setRow
      split_ifs <;> first | rfl | exact isKerb_digitChar _
  rw [hbase]
  simp only [Bool.false_eq_true, or_false]
  tauto

set_option maxHeartbeats 800000 in
/-- C6 (amended): for every configuration with `3 ≤ minimal_width` and
`minimal_width + 4 ≤ race_width`, every generated row has exactly two
kerb cells — the cells at the two drawn kerb positions, which are
distinct and lie inside `[0, race_width)` — with the left kerb strictly
left of the right kerb; the drawn road width is always at least
`minimal_width - 2`, and a row whose width fell below `minimal_width`
(the transient sub-minimal rows the claim excepts) is never followed by
a narrower row. -/
theorem C6_row_kerbs (cfg : Config) (dr : ℕ → ℚ) (ir : ℕ → ℕ)
    (h3 : 3 ≤ cfg.minimal_width) (h4 : cfg.minimal_width + 4 ≤ cfg.race_width)
    (k : ℕ) :
    (0 ≤ (genFrom cfg dr ir k).b0 + (genFrom cfg dr ir k).d0 ∧
      (genFrom cfg dr ir k).b0 + (genFrom cfg dr ir k).d0 < cfg.race_width ∧
      0 ≤ (genFrom cfg dr ir k).b1 + (genFrom cfg dr ir k).d1 ∧
      (genFrom cfg dr ir k).b1 + (genFrom cfg dr ir k).d1 < cfg.race_width) ∧
    (genFrom cfg dr ir k).b0 + (genFrom cfg dr ir k).d0 <
      (genFrom cfg dr ir k).b1 + (genFrom cfg dr ir k).d1 ∧
    (∀ j : ℤ, (isKerb (rowAt cfg dr ir k j) = true) ↔
      (j = (genFrom cfg dr ir k).b0 + (genFrom cfg dr ir k).d0 ∨
       j = (genFrom cfg dr ir k).b1 + (genFrom cfg dr ir k).d1)) ∧
    cfg.minimal_width - 2 ≤
      ((genFrom cfg dr ir k).b1 + (genFrom cfg dr ir k).d1) -
        ((genFrom cfg dr ir k).b0 + (genFrom cfg dr ir k).d0) ∧
    (((genFrom cfg dr ir k).b1 + (genFrom cfg dr ir k).d1) -
        ((genFrom cfg dr ir k).b0 + (genFrom cfg dr ir k).d0) < cfg.minimal_width →
      ((genFrom cfg dr ir k).b1 + (genFrom cfg dr ir k).d1) -
          ((genFrom cfg dr ir k).b0 + (genFrom cfg dr ir k).d0) ≤
        ((genFrom cfg dr ir (k + 1)).b1 + (genFrom cfg dr ir (k + 1)).d1) -
          ((genFrom cfg dr ir (k + 1)).b0 + (genFrom cfg dr ir (k + 1)).d0)) := by
  obtain ⟨hA, hB, hW, hd0l, hd0r, hd1l, hd1r⟩ := kerbInv_genFrom cfg dr ir h3 h4 k
  have hrec := (stepRow_inv cfg dr ir ((cfg.race_length : ℤ) - 1 - (k : ℤ))
    (genFrom cfg dr ir k) h3 h4 (kerbInv_genFrom cfg dr ir h3 h4 k)).2
  refine ⟨⟨by omega, by omega, by omega, by omega⟩, by omega,
    rowAt_kerb_iff cfg dr ir k hd0l hd0r hd1l hd1r, by omega, hrec⟩

/-- Witness for `C6_row_kerbs` on the concrete configuration `cfg6`. -/
theorem C6_row_kerbs_witness :
    (3 ≤ cfg6.minimal_width ∧ cfg6.minimal_width + 4 ≤ cfg6.race_width) ∧
    (0 ≤ (genFrom cfg6 zeroQ zeroN 0).b0 + (genFrom cfg6 zeroQ zeroN 0).d0 ∧
      (genFrom cfg6 zeroQ zeroN 0).b0 + (genFrom cfg6 zeroQ zeroN 0).d0 < cfg6.race_width ∧
      0 ≤ (genFrom cfg6 zeroQ zeroN 0).b1 + (genFrom cfg6 zeroQ zeroN 0).d1 ∧
      (genFrom cfg6 zeroQ zeroN 0).b1 + (genFrom cfg6 zeroQ zeroN 0).d1 < cfg6.race_width) :=
  ⟨⟨by decide, by decide⟩,
    (C6_row_kerbs cfg6 zeroQ zeroN (by decide) (by decide) 0).1⟩

set_option maxRecDepth 10000 in
/-- C6 counterexample to the claim as stated over all generated tracks:
with the valid configuration `cfgK` (`minimal_width = 2 ≤ race_width`,
`turn_chance = 1`) and the oracle streams `zeroQ`/`irK` the kerbs drift
towards each other by one column per row and coincide on row 0, which
therefore has exactly one kerb cell instead of two. -/
theorem C6_row_kerbs_cex :
    cfgK.minimal_width ≤ cfgK.race_width ∧
    ((List.range 10).countP
      (fun j => isKerb (trackGrid cfgK zeroQ irK 0 (j : ℤ)))) = 1 := by
  constructor
  · decide
  · decide

/-! ## Claim C9: generation failure and success -/

/-- C9 (amended): the `minimal_width ≤ race_width` precondition of
`track::track` is checked exactly once, before any row is generated (it
is the first branch of `genTrackE`), and a configuration violating it
fails there; a valid configuration with `3 ≤ minimal_width` and
`minimal_width + 4 ≤ race_width` generates the full circuit with every
write in bounds.  (Valid configurations closer to the boundary can
instead fail with an out-of-bounds write, see `C9_generation_cex`; and
in the C++ the failure is an `assert`, which aborts the process rather
than recoverably returning to configuration.) -/
theorem C9_generation (cfg : Config) (dr : ℕ → ℚ) (ir : ℕ → ℕ) :
    (cfg.race_width < cfg.minimal_width →
      genTrackE cfg dr ir = Except.error GenErr.configAssert) ∧
    (3 ≤ cfg.minimal_width → cfg.minimal_width + 4 ≤ cfg.race_width →
      genTrackE cfg dr ir = Except.ok (trackGrid cfg dr ir)) := by
  constructor
  · intro h
    unfold genTrackE
    rw [if_pos h]
  · intro h3 h4
    have hall : (List.range cfg.race_length).all
        (fun k => rowWritesOk cfg dr ir k) = true := by
      rw [List.all_eq_true]
      intro k _
      obtain ⟨hA, hB, hW, hd0l, hd0r, hd1l, hd1r⟩ :=
        kerbInv_genFrom cfg dr ir h3 h4 k
      unfold rowWritesOk
      dsimp only
      simp only [Bool.and_eq_true, Bool.or_eq_true, Bool.not_eq_true',
        decide_eq_true_eq, decide_eq_false_iff_not]
      have hrock0 : 0 ≤ Int.tmod ((ir (genFrom cfg dr ir k).ii : ℕ) : ℤ)
          cfg.race_width :=
        Int.tmod_nonneg _ (Int.natCast_nonneg _)
      have hrock1 : Int.tmod ((ir (genFrom cfg dr ir k).ii : ℕ) : ℤ)
          cfg.race_width < cfg.race_width :=
        Int.tmod_lt_of_pos _ (by omega)
      exact ⟨⟨⟨by omega, Or.inr ⟨hrock0, hrock1⟩⟩, Or.inr ⟨by omega, by omega⟩⟩,
        Or.inr ⟨by omega, by omega⟩⟩
    unfold genTrackE
    rw [if_neg (by omega), if_pos hall]

/-- Witness for `C9_generation`: the assert branch on the inverted
configuration `minimal_width = 8 > 1 = race_width`, and the success
branch on `cfg6`. -/
theorem C9_generation_witness :
    (({cfg6 with minimal_width := 9} : Config).race_width <
        ({cfg6 with minimal_width := 9} : Config).minimal_width ∧
      3 ≤ cfg6.minimal_width ∧ cfg6.minimal_width + 4 ≤ cfg6.race_width) ∧
    genTrackE ({cfg6 with minimal_width := 9} : Config) zeroQ zeroN
      = Except.error GenErr.configAssert ∧
    genTrackE cfg6 zeroQ zeroN = Except.ok (trackGrid cfg6 zeroQ zeroN) :=
  ⟨⟨by decide, by decide, by decide⟩,
    (C9_generation ({cfg6 with minimal_width := 9} : Config) zeroQ zeroN).1 (by decide),
    (C9_generation cfg6 zeroQ zeroN).2 (by decide) (by decide)⟩

/-- C9 counterexample to the success part as claimed: the configuration
`cfg8` passes the checked precondition (`minimal_width = race_width =
8`), yet generation does not succeed — the very first right kerb draw
targets column `(8*3+8)/4 = 8 = race_width`, an out-of-bounds write into
the row vector. -/
theorem C9_generation_cex :
    cfg8.minimal_width ≤ cfg8.race_width ∧
    genTrackE cfg8 zeroQ zeroN = Except.error GenErr.outOfBounds := by
  constructor
  · decide
  · rfl

/-! ## Claim C1: the zero-chance scenario -/

/-- If the very first loop condition fails, the re-roll loop only
consumes its one `drand()` draw and keeps the direction. -/
theorem retryLoop_exit5 (dr : ℕ → ℚ) (turn : ℚ) (stuck : ℤ → Bool)
    (ir : ℕ → ℕ) (d : ℤ) (di ii : ℕ) (hq : ¬ dr di < turn)
    (hs : stuck d = false) :
    retryLoop dr turn stuck ir 5 (d, di, ii) = (d, di + 1, ii) := by
  have hunf : retryLoop dr turn stuck ir 5 (d, di, ii)
      = if dr di < turn ∨ stuck d = true then
          retryLoop dr turn stuck ir 4 (((ir ii % 3 : ℕ) : ℤ) - 1, di + 1, ii + 1)
        else (d, di + 1, ii) := rfl
  rw [hunf, if_neg]
  rintro (h | h)
  · exact hq h
  · rw [hs] at h
    exact Bool.false_ne_true h

/-- A row step with zero rock and turn chance, straight kerbs away from
the edges and a wide enough road keeps the kerbs where they are,
consumes exactly three `drand()` draws, and draws the two straight kerb
glyphs over the background row. -/
theorem stepRow_straight (cfg : Config) (dr : ℕ → ℚ) (ir : ℕ → ℕ) (i : ℤ)
    (s : GenState) (hdr : ∀ n, 0 ≤ dr n)
    (hrock : cfg.rock_chance = 0) (hturn : cfg.turn_chance = 0)
    (hd0 : s.d0 = 0) (hd1 : s.d1 = 0)
    (hL : s.b0 ≠ 0) (hR : s.b1 ≠ cfg.race_width)
    (hwide : ¬ (s.b1 - s.b0 < cfg.minimal_width)) :
    (stepRow cfg dr ir i s).1 = ⟨s.b0, s.b1, 0, 0, s.di + 3, s.ii⟩ ∧
    (stepRow cfg dr ir i s).2
      = setRow (setRow (setRow (fun _ => ' ') 0 (digitChar i)) s.b0 '|')
          s.b1 '|' := by
  unfold stepRow
  dsimp only
  have hrockb : decide (dr s.di < cfg.rock_chance) = false := by
    rw [hrock]
    exact decide_eq_false (not_lt.mpr (hdr _))
  rw [hrockb, hd0, hd1]
  simp only [Bool.false_eq_true, if_false, add_zero]
  have hx0 : retryLoop dr cfg.turn_chance (fun d => s.b0 + d == 0) ir 5
      (0, s.di + 1, s.ii) = (0, s.di + 1 + 1, s.ii) :=
    retryLoop_exit5 dr cfg.turn_chance _ ir 0 (s.di + 1) s.ii
      (by rw [hturn]; exact not_lt.mpr (hdr _))
      (by simpa using hL)
  rw [hx0]
  dsimp only
  have hx1 : retryLoop dr cfg.turn_chance (fun d => s.b1 + d == cfg.race_width)
      ir 5 (0, s.di + 1 + 1, s.ii) = (0, s.di + 1 + 1 + 1, s.ii) :=
    retryLoop_exit5 dr cfg.turn_chance _ ir 0 (s.di + 1 + 1) s.ii
      (by rw [hturn]; exact not_lt.mpr (hdr _))
      (by simpa using hR)
  rw [hx1]
  dsimp only
  rw [if_neg hwide, if_neg hwide]
  refine ⟨?_, ?_⟩
  · simp only [ite_self]
  · simp [drawKerb]

/-- With the C1 configuration and any nonnegative `drand()` stream, the
generator state never changes: both kerbs stay at columns 10 and 70 with
straight glyphs, and each row consumes exactly three `drand()` draws. -/
theorem c1_state (dr : ℕ → ℚ) (ir : ℕ → ℕ) (hdr : ∀ n, 0 ≤ dr n) :
    ∀ k : ℕ, genFrom cfgC1 dr ir k = ⟨10, 70, 0, 0, 3 * k, 0⟩ := by
  intro k
  induction k with
  | zero =>
    show initState cfgC1 = _
    rfl
  | succ n ih =>
    have heq : genFrom cfgC1 dr ir (n + 1)
        = (stepRow cfgC1 dr ir ((cfgC1.race_length : ℤ) - 1 - (n : ℤ))
            (genFrom cfgC1 dr ir n)).1 := rfl
    rw [heq, ih]
    rw [(stepRow_straight cfgC1 dr ir _ ⟨10, 70, 0, 0, 3 * n, 0⟩ hdr rfl rfl rfl
      rfl (by show (10 : ℤ) ≠ 0; norm_num) (by show (70 : ℤ) ≠ 80; norm_num)
      (by show ¬ ((70 : ℤ) - 10 < 40); norm_num)).1]
    have h3 : 3 * n + 3 = 3 * (n + 1) := by omega
    rw [h3]

/-- With the C1 configuration, every generated row is the background
with its distance digit at column 0 and straight kerb glyphs at columns
10 and 70. -/
theorem c1_row (dr : ℕ → ℚ) (ir : ℕ → ℕ) (hdr : ∀ n, 0 ≤ dr n) (k : ℕ)
    (j : ℤ) :
    rowAt cfgC1 dr ir k j
      = if j = 70 then '|'
        else if j = 10 then '|'
        else if j = 0 then digitChar ((cfgC1.race_length : ℤ) - 1 - (k : ℤ))
        else ' ' := by
  unfold rowAt
  rw [c1_state dr ir hdr k]
  rw [(stepRow_straight cfgC1 dr ir _ ⟨10, 70, 0, 0, 3 * k, 0⟩ hdr rfl rfl rfl
    rfl (by show (10 : ℤ) ≠ 0; norm_num) (by show (70 : ℤ) ≠ 80; norm_num)
    (by show ¬ ((70 : ℤ) - 10 < 40); norm_num)).2]
  unfold setRow
  rfl

/-- C1 (amended): in the spec scenario (`race_length = 500`,
`race_width = 80`, `minimal_width = 40`, one player, zero rock and turn
chance) the generated track has perfectly straight parallel kerbs — but
at the constant columns 10 and 70 (`(80-40)/4` and `(80*3+40)/4`), not
at columns 20 and 60: on every one of the 500 rows the cells in columns
10 and 70 hold the straight kerb glyph and no other column holds any
kerb glyph. -/
theorem C1_straight_kerbs (dr : ℕ → ℚ) (ir : ℕ → ℕ)
    (hdr : ∀ n, 0 ≤ dr n) :
    ∀ i : ℤ, 0 ≤ i → i < 500 →
      trackGrid cfgC1 dr ir i 10 = '|' ∧
      trackGrid cfgC1 dr ir i 70 = '|' ∧
      ∀ j : ℤ, 0 ≤ j → j < 80 → j ≠ 10 → j ≠ 70 →
        isKerb (trackGrid cfgC1 dr ir i j) = false := by
  intro i h0 h500
  have hb : ∀ j : ℤ, 0 ≤ j → j < 80 →
      trackGrid cfgC1 dr ir i j
        = rowAt cfgC1 dr ir ((cfgC1.race_length : ℤ) - 1 - i).toNat j := by
    intro j hj0 hj80
    unfold trackGrid
    rw [if_pos]
    exact ⟨h0, by simpa [cfgC1] using h500, hj0, by simpa [cfgC1] using hj80⟩
  refine ⟨?_, ?_, ?_⟩
  · rw [hb 10 (by norm_num) (by norm_num), c1_row dr ir hdr]
    norm_num
  · rw [hb 70 (by norm_num) (by norm_num), c1_row dr ir hdr]
    norm_num
  · intro j hj0 hj80 hj10 hj70
    rw [hb j hj0 hj80, c1_row dr ir hdr]
    rw [if_neg hj70, if_neg hj10]
    by_cases hj : j = 0
    · rw [if_pos hj]
      exact isKerb_digitChar _
    · rw [if_neg hj]
      decide

/-- Witness for `C1_straight_kerbs` with the all-zero `drand()` stream
at row 0. -/
theorem C1_straight_kerbs_witness :
    (∀ n, 0 ≤ zeroQ n) ∧
    trackGrid cfgC1 zeroQ zeroN 0 10 = '|' :=
  ⟨fun n => le_refl 0,
    (C1_straight_kerbs zeroQ zeroN (fun n => le_refl 0) 0 (by norm_num)
      (by norm_num)).1⟩

/-- C1 counterexample to the claimed columns 20 and 60: on row 0 of the
scenario track (all-zero oracle streams) the cell in column 20 is empty
and the cell in column 10 holds the kerb glyph, so the left kerb is at
column 10, not 20. -/
theorem C1_straight_kerbs_cex :
    trackGrid cfgC1 zeroQ zeroN 0 20 = ' ' ∧
    trackGrid cfgC1 zeroQ zeroN 0 10 = '|' := by
  have hb : ∀ j : ℤ, 0 ≤ j → j < 80 →
      trackGrid cfgC1 zeroQ zeroN 0 j
        = rowAt cfgC1 zeroQ zeroN ((cfgC1.race_length : ℤ) - 1 - 0).toNat j := by
    intro j hj0 hj80
    unfold trackGrid
    rw [if_pos]
    refine ⟨le_refl 0, by decide, hj0, by simpa [cfgC1] using hj80⟩
  constructor
  · rw [hb 20 (by norm_num) (by norm_num),
      c1_row zeroQ zeroN (fun n => le_refl 0)]
    norm_num
  · rw [hb 10 (by norm_num) (by norm_num),
      c1_row zeroQ zeroN (fun n => le_refl 0)]
    norm_num

end ZRacer
